import Mathlib

/-!
# Verification of the `text-reader` cursor and detector

Shallow embedding of `src/textreader.rs` and `src/detector.rs`.

The Rust `TextReader` stores a fully materialized `Vec<char>` (`text`), its
length (`len`, written once at construction and never mutated, so it always
equals `text.length` and is modelled as a derived function), the index of the
next unread character (`position : usize`), a 1-based line number
(`line : usize`) and a column counter (`cursor : isize`, modelled as `Int`).

Recursive loops in the source (`back`'s backward probe, `this_line`'s two
walks, `detect`'s scan) are modelled with an explicit fuel argument that
strictly dominates the recursion depth; every lemma that reasons about a loop
carries the fuel bound it needs, and every top-level wrapper passes a bound
that is sufficient for all states the source can reach (for `back`, the
measure `2·position` of the mutual back/scan recursion strictly decreases at
each call while the fuel decreases by exactly one).

Rust `usize` subtraction on these fields never underflows on states reachable
from `new` (where the source would panic in debug builds, the claims do not
apply); `Nat` truncated subtraction is used for it.
-/

structure TextReader where
  text : List Char
  position : Nat
  line : Nat
  cursor : Int
deriving DecidableEq

/-- `TextReader::new`: cursor at the start, line 1, column 0. -/
def TextReader.new (text : List Char) : TextReader :=
  { text := text, position := 0, line := 1, cursor := 0 }

/-- The stored `len` field: assigned `chars.len()` at construction and never
written again, hence modelled as `text.length`. -/
def TextReader.len (r : TextReader) : Nat := r.text.length

/-- `TextReader::has_next`: `position < len`. -/
def TextReader.has_next (r : TextReader) : Bool := r.position < r.len

/-- `TextReader::peek`: the character at `position - 1`, if any. -/
def TextReader.peek (r : TextReader) : Option Char :=
  if r.position = 0 then none
  else if r.len ≤ r.position - 1 then none
  else r.text.get? (r.position - 1)

/-- `TextReader::next`: consume one character; `position += 1`, `cursor += 1`;
on a newline additionally `line += 1`, `cursor = 0`. -/
def TextReader.next (r : TextReader) : Option Char × TextReader :=
  if r.has_next then
    let ch := r.text.getD r.position default
    (some ch,
      let r1 := { r with position := r.position + 1, cursor := r.cursor + 1 }
      if ch = '\n' then { r1 with line := r1.line + 1, cursor := 0 } else r1)
  else (none, r)

/-- `TextReader::reset`. -/
def TextReader.reset (r : TextReader) : TextReader :=
  { r with line := 1, position := 0, cursor := 0 }

mutual

/-- `TextReader::back`, fuel-indexed.  If the character behind the cursor is
not a newline, step back one position and decrement the column.  If it is a
newline, step back, decrement the line, and recompute the column from the
probe distance computed by `backScanF`; the probe's own position/line/cursor
mutations are overwritten by the saved values, exactly as in the source. -/
def backF : Nat → TextReader → TextReader
  | 0, r => r
  | fuel + 1, r =>
    if r.position = 0 then r
    else
      match r.peek with
      | none => r
      | some ch =>
        if ch ≠ '\n' then { r with position := r.position - 1, cursor := r.cursor - 1 }
        else
          let r1 := { r with position := r.position - 1, line := r.line - 1 }
          let distance := backScanF fuel r1 0
          { r1 with cursor := (distance : Int) + 1 }

/-- The probe loop inside `TextReader::back`:
`loop { match self.back().peek() { Some('\n') | None => break, _ => distance += 1 } }`.
Only the resulting `distance` survives (the caller restores position and line
and overwrites the cursor), so the loop returns the count. -/
def backScanF : Nat → TextReader → Nat → Nat
  | 0, _, distance => distance
  | fuel + 1, r, distance =>
    let r' := backF fuel r
    match r'.peek with
    | some c => if c = '\n' then distance else backScanF fuel r' (distance + 1)
    | none => distance

end

/-- `TextReader::back` with fuel sufficient for every state (the mutual
recursion measure `2·position (+1 inside the probe)` strictly decreases at
each call while the fuel decreases by one, so `2·position + 1` dominates). -/
def TextReader.back (r : TextReader) : TextReader :=
  backF (2 * r.position + 1) r

/-- `back()` iterated `n` times (`for _ in 0..n { back(); }`). -/
def TextReader.backN : TextReader → Nat → TextReader
  | r, 0 => r
  | r, n + 1 => TextReader.backN r.back n

/-- Backward walk of `TextReader::this_line`: step back until the position is
0, the column is 0, or the character behind the cursor is a newline. -/
def thisLineBack : Nat → TextReader → TextReader
  | 0, r => r
  | fuel + 1, r =>
    if r.position = 0 ∨ r.cursor = 0 then r
    else
      let r' := r.back
      match r'.peek with
      | some c => if c = '\n' then r' else thisLineBack fuel r'
      | none => thisLineBack fuel r'

/-- Forward walk of `TextReader::this_line`: consume until a newline (then
undo it once) or end of input. -/
def thisLineForward : Nat → TextReader → TextReader
  | 0, r => r
  | fuel + 1, r =>
    if r.has_next then
      match r.next with
      | (some c, r') => if c = '\n' then r'.back else thisLineForward fuel r'
      | (none, r') => thisLineForward fuel r'
    else r

/-- `TextReader::this_line`: save `(position, cursor, line)`, walk back to the
line start, walk forward to the line end, return `None` if the two walks meet
(without restoring the saved state — as in the source, the early return skips
the restore), otherwise collect the characters with index in
`[start_position, position)` and restore the saved state. -/
def TextReader.this_line (r : TextReader) : Option (List Char) × TextReader :=
  let position := r.position
  let cursor := r.cursor
  let line := r.line
  let rb := thisLineBack (r.position + 1) r
  let start_position := rb.position
  let rf := thisLineForward (rb.len - rb.position + 1) rb
  if start_position = rf.position then (none, rf)
  else
    let line_text :=
      ((rf.text.enum.filter fun p => decide (start_position ≤ p.1 ∧ p.1 < rf.position)).map
        Prod.snd)
    (some line_text, { rf with position := position, cursor := cursor, line := line })

/-- `next` iterated `n` times, discarding the returned characters: the states
reachable by forward reads alone. -/
def TextReader.nextN : Nat → TextReader → TextReader
  | 0, r => r
  | n + 1, r => TextReader.nextN n r.next.2

/-- The observable cursor triple `(position, line, column)`. -/
def TextReader.tripleOf (r : TextReader) : Nat × Nat × Int :=
  (r.position, r.line, r.cursor)

structure Detector where
  reader : TextReader
  compares : List Char
  last_len : Nat
deriving DecidableEq

/-- `Detector::new`. -/
def Detector.new (reader : TextReader) : Detector :=
  { reader := reader, compares := [], last_len := 0 }

/-- `TextReader::detector`. -/
def TextReader.detector (r : TextReader) : Detector := Detector.new r

/-- `Detector::next_char`: push one expected character. -/
def Detector.next_char (d : Detector) (ch : Char) : Detector :=
  { d with compares := d.compares ++ [ch] }

/-- `Detector::next_text`: push each character of the text in order. -/
def Detector.next_text (d : Detector) (text : List Char) : Detector :=
  text.foldl (fun d ch => d.next_char ch) d

/-- `Detector::restore`: undo `count` reads by calling `back()` that many
times (the `count == 0` early return is the same as zero iterations). -/
def restoreN (count : Nat) (r : TextReader) : TextReader :=
  if count = 0 then r else r.backN count

/-- The loop of `Detector::detect`, fuel-indexed.  `ll` is the detector's
`last_len` on entry (written only on the success paths); the result is
`(return value, last_len, reader)`. -/
def detectLoopF : Nat → List Char → Nat → Nat → TextReader → Bool × Nat × TextReader
  | 0, _, ll, _, r => (false, ll, r)
  | fuel + 1, compares, ll, ix, r =>
    if r.has_next then
      match r.next with
      | (some ch, r1) =>
        match compares.get? ix with
        | none => (true, compares.length, r1.back)
        | some c =>
          if ch = c then detectLoopF fuel compares ll (ix + 1) r1
          else (false, ll, restoreN (ix + 1) r1)
      | (none, r1) => (false, ll, restoreN ix r1)
    else
      if ix = compares.length then (true, compares.length, r)
      else (false, ll, restoreN ix r)

/-- `Detector::detect`: run the loop from `ix = 0`.  The fuel
`len - position + 1` exceeds the number of iterations (each iteration
consumes one character). -/
def Detector.detect (d : Detector) : Bool × Detector :=
  let res := detectLoopF (d.reader.len - d.reader.position + 1) d.compares d.last_len 0 d.reader
  (res.1, { d with last_len := res.2.1, reader := res.2.2 })

/-- `Detector::yes`. -/
def Detector.yes (d : Detector) : Bool × Detector := d.detect

/-- `Detector::no`. -/
def Detector.no (d : Detector) : Bool × Detector :=
  let res := d.detect
  (!res.1, res.2)

/-- `Detector::rollback`: `back()` repeated `last_len` times. -/
def Detector.rollback (d : Detector) : Detector :=
  { d with reader := d.reader.backN d.last_len }

/-- Modelled from the spec (§4.2 `back()`, for comparison with the code):
the index of the first character of the line containing position `p`, i.e.
the largest `j ≤ p` such that `j = 0` or `text[j-1]` is a newline. -/
def lineStart (text : List Char) : Nat → Nat
  | 0 => 0
  | p + 1 => if text.getD p default = '\n' then p + 1 else lineStart text p

/-- Modelled from the spec (§4.2 `back()`, for comparison with the code):
the distance `d` counted by the described backward scan from position `p` —
the number of characters strictly between the nearest preceding newline (or
the buffer start) and the character immediately behind position `p`; the
spec sets `column := d + 1`. -/
def specScanDist (text : List Char) (p : Nat) : Nat :=
  (p - lineStart text p) - 1


/-- The scenario input of the repository's own test: `"華文\ndef"`. -/
def sampleText : List Char := "華文\ndef".toList

/-- First read of the scenario. -/
def sampleStep1 : Option Char × TextReader := (TextReader.new sampleText).next

/-- Second read of the scenario. -/
def sampleStep2 : Option Char × TextReader := sampleStep1.2.next

/-- `this_line` after the first two reads. -/
def sampleLine1 : Option (List Char) × TextReader := sampleStep2.2.this_line

/-- Third read of the scenario (the newline). -/
def sampleStep3 : Option Char × TextReader := sampleLine1.2.next

/-- `this_line` after the newline. -/
def sampleLine2 : Option (List Char) × TextReader := sampleStep3.2.this_line

/-! ## Basic facts about the reader operations -/

theorem get?_some_getD (l : List Char) (n : Nat) (h : n < l.length) :
    l.get? n = some (l.getD n default) := by
  rw [List.get?_eq_getElem?, List.getElem?_eq_getElem h, List.getD_eq_getElem l default h]

theorem peek_some (r : TextReader) (h1 : 1 ≤ r.position) (h2 : r.position ≤ r.text.length) :
    r.peek = some (r.text.getD (r.position - 1) default) := by
  have hpos : r.position ≠ 0 := by omega
  have hlt : r.position - 1 < r.text.length := by omega
  rw [TextReader.peek, if_neg hpos, if_neg (by simp [TextReader.len]; omega),
    get?_some_getD _ _ hlt]

theorem next_fst_of_lt (r : TextReader) (h : r.position < r.text.length) :
    (r.next).1 = some (r.text.getD r.position default) := by
  rw [TextReader.next, if_pos (by simp [TextReader.has_next, TextReader.len, h])]

theorem next_snd_position_of_lt (r : TextReader) (h : r.position < r.text.length) :
    (r.next).2.position = r.position + 1 := by
  rw [TextReader.next, if_pos (by simp [TextReader.has_next, TextReader.len, h])]
  dsimp only
  split <;> rfl

theorem next_snd_text (r : TextReader) : (r.next).2.text = r.text := by
  rw [TextReader.next]
  split
  · dsimp only
    split <;> rfl
  · rfl

theorem next_of_ge (r : TextReader) (h : r.text.length ≤ r.position) :
    r.next = (none, r) := by
  rw [TextReader.next, if_neg (by simp [TextReader.has_next, TextReader.len]; omega)]

theorem backF_text (fuel : Nat) (r : TextReader) : (backF fuel r).text = r.text := by
  cases fuel with
  | zero => rfl
  | succ fuel =>
    rw [backF]
    split
    · rfl
    · split
      · rfl
      · split
        · rfl
        · rfl

theorem back_text (r : TextReader) : (r.back).text = r.text := backF_text _ r

theorem backF_position (fuel : Nat) (r : TextReader)
    (hf : 1 ≤ fuel) (h1 : 1 ≤ r.position) (h2 : r.position ≤ r.text.length) :
    (backF fuel r).position = r.position - 1 := by
  obtain ⟨fuel, rfl⟩ : ∃ f, fuel = f + 1 := ⟨fuel - 1, by omega⟩
  rw [backF, if_neg (by omega), peek_some r h1 h2]
  split
  · simp_all
  · split <;> rfl

theorem back_position (r : TextReader) (h1 : 1 ≤ r.position) (h2 : r.position ≤ r.text.length) :
    (r.back).position = r.position - 1 :=
  backF_position _ r (by omega) h1 h2

theorem backN_position (n : Nat) (r : TextReader)
    (hn : n ≤ r.position) (h2 : r.position ≤ r.text.length) :
    (r.backN n).position = r.position - n ∧ (r.backN n).text = r.text := by
  induction n generalizing r with
  | zero => exact ⟨rfl, rfl⟩
  | succ n ih =>
    rw [TextReader.backN]
    have hp : (r.back).position = r.position - 1 := back_position r (by omega) h2
    have ht : (r.back).text = r.text := back_text r
    have := ih r.back (by rw [hp]; omega) (by rw [hp, ht]; omega)
    refine ⟨?_, ?_⟩
    · rw [this.1, hp]; omega
    · rw [this.2, ht]

theorem restoreN_eq_backN (count : Nat) (r : TextReader) : restoreN count r = r.backN count := by
  rw [restoreN]
  split
  · subst count; rfl
  · rfl

/-! ## The backward probe on a non-empty previous line -/

theorem lineStart_le (text : List Char) (p : Nat) : lineStart text p ≤ p := by
  induction p with
  | zero => exact Nat.le_refl 0
  | succ p ih =>
    rw [lineStart]
    split
    · exact Nat.le_refl _
    · omega

theorem lineStart_run (text : List Char) (p : Nat) :
    ∀ j, lineStart text p ≤ j → j < p → text.getD j default ≠ '\n' := by
  induction p with
  | zero => omega
  | succ p ih =>
    intro j h1 h2
    rw [lineStart] at h1
    by_cases hc : text.getD p default = '\n'
    · rw [if_pos hc] at h1; omega
    · rw [if_neg hc] at h1
      rcases Nat.lt_or_ge j p with h | h
      · exact ih j h1 h
      · have : j = p := by omega
        subst this; exact hc

theorem lineStart_of_ne (text : List Char) (p : Nat) (h : text.getD p default ≠ '\n') :
    lineStart text (p + 1) = lineStart text p := by
  rw [lineStart, if_neg h]

/-- While the characters behind the cursor down to the line start are all
non-newlines, the probe loop counts exactly the number of steps whose peek
still shows a non-newline: `position - lineStart - 1`. -/
theorem backScanF_run (fuel : Nat) :
    ∀ (text : List Char) (q : Nat) (l : Nat) (c : Int) (d : Nat),
      q + 2 ≤ fuel → q + 1 ≤ text.length → lineStart text (q + 1) < q + 1 →
      backScanF fuel ⟨text, q + 1, l, c⟩ d = d + (q + 1 - lineStart text (q + 1) - 1) := by
  induction fuel with
  | zero => omega
  | succ fuel ih =>
    intro text q l c d hfuel hlen hls
    have hrun : text.getD q default ≠ '\n' :=
      lineStart_run text (q + 1) q (by omega) (by omega)
    have hback : backF fuel ⟨text, q + 1, l, c⟩ = ⟨text, q, l, c - 1⟩ := by
      obtain ⟨g, rfl⟩ : ∃ g, fuel = g + 1 := ⟨fuel - 1, by omega⟩
      rw [backF, if_neg (by simp), peek_some ⟨text, q + 1, l, c⟩ (by simp) (by simpa)]
      dsimp only
      rw [if_pos (by simpa using hrun)]
      simp
    rw [backScanF]
    simp only [hback]
    rcases Nat.eq_zero_or_pos q with rfl | hq
    · rw [show TextReader.peek ⟨text, 0, l, c - 1⟩ = none from rfl]
      dsimp only
      omega
    · obtain ⟨q1, rfl⟩ : ∃ q1, q = q1 + 1 := ⟨q - 1, by omega⟩
      have hpk : TextReader.peek ⟨text, q1 + 1, l, c - 1⟩ = some (text.getD q1 default) := by
        have := peek_some ⟨text, q1 + 1, l, c - 1⟩ (by simp) (by simp; omega)
        simpa using this
      rw [hpk]
      dsimp only
      have hls1 : lineStart text (q1 + 1 + 1) = lineStart text (q1 + 1) :=
        lineStart_of_ne text (q1 + 1) (by simpa using hrun)
      by_cases hc2 : text.getD q1 default = '\n'
      · rw [if_pos hc2]
        have e1 : lineStart text (q1 + 1) = q1 + 1 := by rw [lineStart, if_pos hc2]
        rw [hls1, e1]
        omega
      · rw [if_neg hc2]
        have hls2 : lineStart text (q1 + 1) = lineStart text q1 :=
          lineStart_of_ne text q1 hc2
        have hrec := ih text q1 l (c - 1) (d + 1) (by omega) (by omega)
          (by rw [hls2]; have := lineStart_le text q1; omega)
        rw [hrec, hls1, hls2]
        have := lineStart_le text q1
        omega

/-- `back()` undoing a newline whose previous line is non-empty: position and
line drop by one and the column becomes the length of the previous line,
i.e. the probe distance plus one. -/
theorem back_newline (r : TextReader)
    (h2 : 2 ≤ r.position) (hlen : r.position ≤ r.text.length)
    (hnl : r.text.getD (r.position - 1) default = '\n')
    (hprev : r.text.getD (r.position - 2) default ≠ '\n') :
    r.back = ⟨r.text, r.position - 1, r.line - 1,
      ((specScanDist r.text (r.position - 1) : Nat) : Int) + 1⟩ := by
  obtain ⟨q, hq⟩ : ∃ q, r.position = q + 2 := ⟨r.position - 2, by omega⟩
  obtain ⟨text, pos, line, cursor⟩ := r
  simp only at hq
  subst hq
  simp only at hnl hprev hlen ⊢
  rw [TextReader.back]
  show backF (2 * (q + 2) + 1) _ = _
  rw [show 2 * (q + 2) + 1 = (2 * q + 4) + 1 from by ring, backF, if_neg (by simp),
    peek_some ⟨text, q + 2, line, cursor⟩ (by simp) (by simpa)]
  dsimp only
  rw [if_neg (by simpa using hnl)]
  have hprev' : text.getD q default ≠ '\n' := by simpa using hprev
  have hls2 : lineStart text (q + 1) = lineStart text q := lineStart_of_ne text q hprev'
  have hlsle := lineStart_le text q
  have hscan := backScanF_run (2 * q + 4) text q (line - 1) cursor 0 (by omega) (by omega)
    (by rw [hls2]; omega)
  simp only [show (⟨text, q + 2, line, cursor⟩ : TextReader).position - 1 = q + 1 from by simp,
    show (⟨text, q + 2, line, cursor⟩ : TextReader).text = text from rfl]
  rw [hscan]
  simp only [specScanDist, TextReader.mk.injEq]
  refine ⟨trivial, trivial, trivial, ?_⟩
  omega

theorem backF_zero (fuel : Nat) (text : List Char) (l : Nat) (c : Int) :
    backF fuel ⟨text, 0, l, c⟩ = ⟨text, 0, l, c⟩ := by
  cases fuel with
  | zero => rfl
  | succ fuel => rw [backF, if_pos rfl]

theorem backScanF_zero (fuel : Nat) (text : List Char) (l : Nat) (c : Int) (d : Nat)
    (hf : 1 ≤ fuel) : backScanF fuel ⟨text, 0, l, c⟩ d = d := by
  obtain ⟨g, rfl⟩ : ∃ g, fuel = g + 1 := ⟨fuel - 1, by omega⟩
  rw [backScanF]
  simp only [backF_zero]
  rw [show (⟨text, 0, l, c⟩ : TextReader).peek = none from rfl]

/-- `back()` undoing a newline that is the very first character of the
buffer: position drops to 0, line drops by one, and the probe breaks at
once, so the column becomes 1 (the scan distance is 0). -/
theorem back_newline_at_start (r : TextReader)
    (h1 : r.position = 1) (hlen : r.position ≤ r.text.length)
    (hnl : r.text.getD (r.position - 1) default = '\n') :
    r.back = ⟨r.text, 0, r.line - 1, 1⟩ := by
  obtain ⟨text, pos, line, cursor⟩ := r
  simp only at h1 hnl hlen ⊢
  subst h1
  rw [TextReader.back]
  rw [show 2 * (1 : Nat) + 1 = 2 + 1 from rfl, backF, if_neg (by simp),
    peek_some ⟨text, 1, line, cursor⟩ (by simp) (by simpa)]
  dsimp only
  rw [if_neg (by simpa using hnl)]
  simp only [Nat.sub_self]
  rw [backScanF_zero 2 text (line - 1) cursor 0 (by omega)]
  norm_num

/-! ## The detect loop -/

theorem next_eq_of_lt (r : TextReader) (h : r.position < r.text.length) :
    r.next = (some (r.text.getD r.position default), (r.next).2) := by
  refine Prod.ext ?_ rfl
  exact next_fst_of_lt r h

theorem has_next_true (r : TextReader) (h : r.position < r.text.length) :
    r.has_next = true := by
  simp [TextReader.has_next, TextReader.len, h]

theorem has_next_false (r : TextReader) (h : r.text.length ≤ r.position) :
    ¬ r.has_next = true := by
  simp [TextReader.has_next, TextReader.len]; omega

theorem detectLoopF_true (fuel : Nat) :
    ∀ (compares : List Char) (ll ix : Nat) (r : TextReader),
      r.text.length - r.position < fuel → r.position ≤ r.text.length →
      (detectLoopF fuel compares ll ix r).1 = true →
      (detectLoopF fuel compares ll ix r).2.1 = compares.length ∧
      (detectLoopF fuel compares ll ix r).2.2.position = r.position + (compares.length - ix) ∧
      (detectLoopF fuel compares ll ix r).2.2.position ≤ r.text.length ∧
      (detectLoopF fuel compares ll ix r).2.2.text = r.text := by
  induction fuel with
  | zero => omega
  | succ fuel ih =>
    intro compares ll ix r hfuel hpos htrue
    by_cases hlt : r.position < r.text.length
    · rw [detectLoopF, if_pos (has_next_true r hlt), next_eq_of_lt r hlt] at htrue ⊢
      dsimp only at htrue ⊢
      have hp2 : (r.next).2.position = r.position + 1 := next_snd_position_of_lt r hlt
      have ht2 : (r.next).2.text = r.text := next_snd_text r
      cases hc : compares.get? ix with
      | none =>
        rw [hc] at htrue
        dsimp only at htrue ⊢
        have hlen : compares.length ≤ ix := List.get?_eq_none.mp hc
        have hb : ((r.next).2.back).position = (r.next).2.position - 1 :=
          back_position _ (by omega) (by rw [hp2, ht2]; omega)
        refine ⟨rfl, ?_, ?_, ?_⟩
        · rw [hb, hp2]; omega
        · rw [hb, hp2]; omega
        · rw [back_text, ht2]
      | some c =>
        rw [hc] at htrue
        dsimp only at htrue ⊢
        by_cases hch : r.text.getD r.position default = c
        · rw [if_pos hch] at htrue ⊢
          have hix : ix < compares.length := by
            rcases List.get?_eq_some.mp hc with ⟨h, -⟩; exact h
          have := ih compares ll (ix + 1) (r.next).2
            (by rw [hp2, ht2]; omega) (by rw [hp2, ht2]; omega) htrue
          refine ⟨this.1, ?_, ?_, ?_⟩
          · rw [this.2.1, hp2]; omega
          · rw [← ht2]; exact this.2.2.1
          · rw [this.2.2.2, ht2]
        · rw [if_neg hch] at htrue
          simp at htrue
    · rw [detectLoopF, if_neg (has_next_false r (by omega))] at htrue ⊢
      by_cases hix : ix = compares.length
      · rw [if_pos hix] at htrue ⊢
        dsimp only
        exact ⟨rfl, by omega, hpos, rfl⟩
      · rw [if_neg hix] at htrue
        simp at htrue

theorem detectLoopF_false (fuel : Nat) :
    ∀ (compares : List Char) (ll ix : Nat) (r : TextReader),
      r.text.length - r.position < fuel → r.position ≤ r.text.length → ix ≤ r.position →
      (detectLoopF fuel compares ll ix r).1 = false →
      (detectLoopF fuel compares ll ix r).2.1 = ll ∧
      (detectLoopF fuel compares ll ix r).2.2.position = r.position - ix ∧
      (detectLoopF fuel compares ll ix r).2.2.text = r.text := by
  induction fuel with
  | zero => omega
  | succ fuel ih =>
    intro compares ll ix r hfuel hpos hix hfalse
    by_cases hlt : r.position < r.text.length
    · rw [detectLoopF, if_pos (has_next_true r hlt), next_eq_of_lt r hlt] at hfalse ⊢
      dsimp only at hfalse ⊢
      have hp2 : (r.next).2.position = r.position + 1 := next_snd_position_of_lt r hlt
      have ht2 : (r.next).2.text = r.text := next_snd_text r
      cases hc : compares.get? ix with
      | none =>
        rw [hc] at hfalse
        simp at hfalse
      | some c =>
        rw [hc] at hfalse
        dsimp only at hfalse ⊢
        by_cases hch : r.text.getD r.position default = c
        · rw [if_pos hch] at hfalse ⊢
          have := ih compares ll (ix + 1) (r.next).2
            (by rw [hp2, ht2]; omega) (by rw [hp2, ht2]; omega) (by rw [hp2]; omega) hfalse
          refine ⟨this.1, ?_, ?_⟩
          · rw [this.2.1, hp2]; omega
          · rw [this.2.2, ht2]
        · rw [if_neg hch]
          have hb := backN_position (ix + 1) (r.next).2 (by rw [hp2]; omega)
            (by rw [hp2, ht2]; omega)
          refine ⟨rfl, ?_, ?_⟩
          · dsimp only; rw [restoreN_eq_backN, hb.1, hp2]; omega
          · dsimp only; rw [restoreN_eq_backN, hb.2, ht2]
    · rw [detectLoopF, if_neg (has_next_false r (by omega))] at hfalse ⊢
      by_cases hix2 : ix = compares.length
      · rw [if_pos hix2] at hfalse
        simp at hfalse
      · rw [if_neg hix2]
        have hb := backN_position ix r hix hpos
        refine ⟨rfl, ?_, ?_⟩
        · dsimp only; rw [restoreN_eq_backN, hb.1]
        · dsimp only; rw [restoreN_eq_backN, hb.2]

theorem detectLoopF_tail (fuel : Nat) :
    ∀ (compares : List Char) (ll ix : Nat) (r : TextReader),
      r.text.length - r.position < fuel → r.position ≤ r.text.length →
      (∀ j, compares.get? (ix + j) = r.text.get? (r.position + j)) →
      compares.length = ix + (r.text.length - r.position) →
      (detectLoopF fuel compares ll ix r).1 = true ∧
      (detectLoopF fuel compares ll ix r).2.1 = compares.length := by
  induction fuel with
  | zero => omega
  | succ fuel ih =>
    intro compares ll ix r hfuel hpos hm hl
    by_cases hlt : r.position < r.text.length
    · rw [detectLoopF, if_pos (has_next_true r hlt), next_eq_of_lt r hlt]
      dsimp only
      have hp2 : (r.next).2.position = r.position + 1 := next_snd_position_of_lt r hlt
      have ht2 : (r.next).2.text = r.text := next_snd_text r
      have hc : compares.get? ix = some (r.text.getD r.position default) := by
        have := hm 0
        simpa using this.trans (get?_some_getD r.text r.position hlt)
      rw [hc]
      dsimp only
      rw [if_pos rfl]
      exact ih compares ll (ix + 1) (r.next).2
        (by rw [hp2, ht2]; omega) (by rw [hp2, ht2]; omega)
        (by
          intro j
          rw [ht2, hp2]
          have := hm (j + 1)
          rw [show ix + 1 + j = ix + (j + 1) from by omega,
            show r.position + 1 + j = r.position + (j + 1) from by omega]
          exact this)
        (by rw [ht2, hp2]; omega)
    · rw [detectLoopF, if_neg (has_next_false r (by omega))]
      have hix : ix = compares.length := by omega
      rw [if_pos hix]
      exact ⟨rfl, rfl⟩

/-! ## Remaining helper lemmas -/

theorem next_text_compares (s : List Char) :
    ∀ d : Detector, (d.next_text s).compares = d.compares ++ s := by
  induction s with
  | nil => intro d; simp [Detector.next_text]
  | cons a s ih =>
    intro d
    show ((d.next_char a).next_text s).compares = _
    rw [ih]
    simp [Detector.next_char]

theorem nextN_stab (k : Nat) :
    TextReader.nextN k ((TextReader.new ("\n".toList)).next).2 =
      ((TextReader.new ("\n".toList)).next).2 := by
  induction k with
  | zero => rfl
  | succ k ih =>
    rw [TextReader.nextN,
      show ((((TextReader.new ("\n".toList)).next).2.next).2 =
        ((TextReader.new ("\n".toList)).next).2) from by decide]
    exact ih

/-! ## The claims -/

/-- C1: the claim that `readNext()` immediately followed by `back()` always
restores `(position, line, column)` exactly fails on the code: on input
`"\n"` at the initial state `(0, 1, 0)` (where `hasNext()` holds), reading
the newline and undoing it restores position and line but sets the column to
1, because the recomputed column `distance + 1` can never be 0. -/
theorem c1_readnext_back_not_exact :
    (TextReader.new ("\n".toList)).has_next = true ∧
    (((TextReader.new ("\n".toList)).next).2.back).position =
      (TextReader.new ("\n".toList)).position ∧
    (((TextReader.new ("\n".toList)).next).2.back).line =
      (TextReader.new ("\n".toList)).line ∧
    (((TextReader.new ("\n".toList)).next).2.back).cursor ≠
      (TextReader.new ("\n".toList)).cursor := by decide

/-- C2: the claim that a failed `succeeds()` leaves `(position, line, column)`
exactly as before fails on the code: on input `"\n"` at the initial state,
`expectText("x")` reads the newline, mismatches, and the restoring `back()`
sets the column to 1 instead of 0 (position and line are restored). -/
theorem c2_failed_match_mutates_state :
    ((((TextReader.new ("\n".toList)).detector).next_text ("x".toList)).detect).1 = false ∧
    ((((TextReader.new ("\n".toList)).detector).next_text ("x".toList)).detect).2.reader.position =
      (TextReader.new ("\n".toList)).position ∧
    ((((TextReader.new ("\n".toList)).detector).next_text ("x".toList)).detect).2.reader.line =
      (TextReader.new ("\n".toList)).line ∧
    ((((TextReader.new ("\n".toList)).detector).next_text ("x".toList)).detect).2.reader.cursor ≠
      (TextReader.new ("\n".toList)).cursor := by decide

/-- C3: whenever `detect` returns true for an expected sequence of length `L`
(from any cursor state with `position ≤ length`), the cursor position is
exactly `L` greater than before the call, `last_len` is set to `L`, and a
subsequent `rollback()` moves the position back exactly `L` characters,
returning it to its pre-call value. -/
theorem c3_success_advances_by_length (d : Detector)
    (hpos : d.reader.position ≤ d.reader.text.length)
    (h : (d.detect).1 = true) :
    (d.detect).2.reader.position = d.reader.position + d.compares.length ∧
    (d.detect).2.last_len = d.compares.length ∧
    ((d.detect).2.rollback).reader.position = d.reader.position := by
  simp only [Detector.detect] at h ⊢
  have hfuel : d.reader.text.length - d.reader.position <
      d.reader.len - d.reader.position + 1 := by simp [TextReader.len]
  obtain ⟨h1, h2, h3, h4⟩ := detectLoopF_true (d.reader.len - d.reader.position + 1)
    d.compares d.last_len 0 d.reader hfuel hpos h
  refine ⟨by rw [h2]; omega, h1, ?_⟩
  simp only [Detector.rollback]
  rw [h1]
  have hb := backN_position d.compares.length
    (detectLoopF (d.reader.len - d.reader.position + 1) d.compares d.last_len 0 d.reader).2.2
    (by rw [h2]; omega) (by rw [h4]; exact h3)
  rw [hb.1, h2]
  omega

theorem c3_success_advances_by_length_witness :
    ((((TextReader.new ("ab".toList)).detector.next_text ("ab".toList)).detect).1 = true ∧
      ((TextReader.new ("ab".toList)).detector.next_text ("ab".toList)).reader.position ≤
        ((TextReader.new ("ab".toList)).detector.next_text ("ab".toList)).reader.text.length) ∧
    (((((TextReader.new ("ab".toList)).detector.next_text ("ab".toList)).detect).2.rollback)).reader.position =
      ((TextReader.new ("ab".toList)).detector.next_text ("ab".toList)).reader.position :=
  ⟨⟨by decide, by decide⟩,
    (c3_success_advances_by_length ((TextReader.new ("ab".toList)).detector.next_text ("ab".toList))
      (by decide) (by decide)).2.2⟩

/-- C4: the claim that `this_line` never changes `(position, line, column)`
fails on the code: on input `"\n"` at the initial state it takes the
`None`-result early return, which skips the restore of the saved state, and
the probe's `back()` has set the column to 1. -/
theorem c4_this_line_mutates_on_none :
    ((TextReader.new ("\n".toList)).this_line).1 = none ∧
    ((TextReader.new ("\n".toList)).this_line).2.position =
      (TextReader.new ("\n".toList)).position ∧
    ((TextReader.new ("\n".toList)).this_line).2.line =
      (TextReader.new ("\n".toList)).line ∧
    ((TextReader.new ("\n".toList)).this_line).2.cursor ≠
      (TextReader.new ("\n".toList)).cursor := by decide

/-- C5: the claim that `(position, line, column)` always stays within the set
of triples reachable by forward reads fails on the code: on input `"\n"`,
`readNext()` then `back()` produces `(0, 1, 1)`, which differs from
`nextN k` of the initial state for every `k` (the only forward-read triples
are `(0, 1, 0)` and `(1, 2, 0)`). -/
theorem c5_back_state_not_forward_reachable :
    ∀ k : Nat,
      (((TextReader.new ("\n".toList)).next).2.back).tripleOf ≠
        (TextReader.nextN k (TextReader.new ("\n".toList))).tripleOf := by
  intro k
  cases k with
  | zero => decide
  | succ k =>
    rw [TextReader.nextN, nextN_stab k]
    decide

/-- C6 counterexample: when the character preceding the undone newline is
itself a newline (the previous line is empty), the probe's first `back()`
crosses that newline too and the scan keeps counting into the line before it,
so the column is not `d + 1` for the described scan distance `d`: on input
`"a\n\n"` after reading all three characters, undoing the final newline gives
column 2 while `d + 1 = 1` (position and line are still decremented by 1). -/
theorem c6_probe_overshoots_on_empty_line :
    (TextReader.nextN 3 (TextReader.new ("a\n\n".toList))).text.getD
      ((TextReader.nextN 3 (TextReader.new ("a\n\n".toList))).position - 1) default = '\n' ∧
    ((TextReader.nextN 3 (TextReader.new ("a\n\n".toList))).back).position =
      (TextReader.nextN 3 (TextReader.new ("a\n\n".toList))).position - 1 ∧
    ((TextReader.nextN 3 (TextReader.new ("a\n\n".toList))).back).line =
      (TextReader.nextN 3 (TextReader.new ("a\n\n".toList))).line - 1 ∧
    ((TextReader.nextN 3 (TextReader.new ("a\n\n".toList))).back).cursor ≠
      ((specScanDist (TextReader.nextN 3 (TextReader.new ("a\n\n".toList))).text
        ((TextReader.nextN 3 (TextReader.new ("a\n\n".toList))).position - 1) : Nat) : Int) + 1 := by
  decide

/-- C6 (amended): when `back()` is called in a state whose most recently
consumed character is a newline and the character immediately preceding that
newline, if it exists, is not itself a newline (either the undone newline is
the first character of the buffer, or a non-newline precedes it), `back()`
decrements `position` by 1 and `line` by 1 and sets the column to `d + 1`,
where `d` is the scan distance of the backward probe (the number of
characters strictly between the nearest preceding newline, or the buffer
start, and the character just before the new position); the probe is
non-destructive: `position` and `line` keep their post-undo values.  When a
newline precedes the undone newline the probe can cross it and overcount, as
the counterexample shows on `"a\n\n"`. -/
theorem c6_back_newline_column (r : TextReader)
    (h1 : 1 ≤ r.position) (hlen : r.position ≤ r.text.length)
    (hnl : r.text.getD (r.position - 1) default = '\n')
    (hprev : r.position = 1 ∨ r.text.getD (r.position - 2) default ≠ '\n') :
    (r.back).position = r.position - 1 ∧
    (r.back).line = r.line - 1 ∧
    (r.back).cursor = ((specScanDist r.text (r.position - 1) : Nat) : Int) + 1 := by
  rcases hprev with hp1 | hprev
  · rw [back_newline_at_start r hp1 hlen hnl, hp1]
    refine ⟨rfl, rfl, ?_⟩
    norm_num [specScanDist, lineStart]
  · have h2 : 2 ≤ r.position := by
      by_contra hcon
      have he : r.position = 1 := by omega
      rw [he] at hnl hprev
      norm_num at hnl hprev
      exact hprev hnl
    rw [back_newline r h2 hlen hnl hprev]
    exact ⟨rfl, rfl, rfl⟩

theorem c6_back_newline_column_witness :
    (1 ≤ (TextReader.nextN 3 (TextReader.new ("ab\n".toList))).position ∧
      (TextReader.nextN 3 (TextReader.new ("ab\n".toList))).position ≤
        (TextReader.nextN 3 (TextReader.new ("ab\n".toList))).text.length ∧
      (TextReader.nextN 3 (TextReader.new ("ab\n".toList))).text.getD
        ((TextReader.nextN 3 (TextReader.new ("ab\n".toList))).position - 1) default = '\n' ∧
      ((TextReader.nextN 3 (TextReader.new ("ab\n".toList))).position = 1 ∨
        (TextReader.nextN 3 (TextReader.new ("ab\n".toList))).text.getD
          ((TextReader.nextN 3 (TextReader.new ("ab\n".toList))).position - 2) default ≠ '\n')) ∧
    ((TextReader.nextN 3 (TextReader.new ("ab\n".toList))).back).cursor = 2 :=
  ⟨⟨by decide, by decide, by decide, by decide⟩,
    ((c6_back_newline_column (TextReader.nextN 3 (TextReader.new ("ab\n".toList)))
      (by decide) (by decide) (by decide) (by decide)).2.2).trans (by decide)⟩

/-- C7: if the expected sequence equals exactly the remaining unread input,
`detect` returns true (end-of-input is an accepted match boundary) and
records `last_len` equal to the sequence's length. -/
theorem c7_tail_match_succeeds (d : Detector)
    (hpos : d.reader.position ≤ d.reader.text.length)
    (hc : d.compares = d.reader.text.drop d.reader.position) :
    (d.detect).1 = true ∧ (d.detect).2.last_len = d.compares.length := by
  simp only [Detector.detect]
  have hfuel : d.reader.text.length - d.reader.position <
      d.reader.len - d.reader.position + 1 := by simp [TextReader.len]
  have := detectLoopF_tail (d.reader.len - d.reader.position + 1) d.compares d.last_len 0
    d.reader hfuel hpos
    (by
      intro j
      rw [hc]
      simp [List.get?_eq_getElem?, List.getElem?_drop])
    (by rw [hc]; simp)
  exact ⟨this.1, this.2⟩

theorem c7_tail_match_succeeds_witness :
    ((((TextReader.new ("xy".toList)).detector.next_text ("xy".toList)).reader.position ≤
        ((TextReader.new ("xy".toList)).detector.next_text ("xy".toList)).reader.text.length) ∧
      ((TextReader.new ("xy".toList)).detector.next_text ("xy".toList)).compares =
        ((TextReader.new ("xy".toList)).detector.next_text ("xy".toList)).reader.text.drop
          ((TextReader.new ("xy".toList)).detector.next_text ("xy".toList)).reader.position) ∧
    ((((TextReader.new ("xy".toList)).detector.next_text ("xy".toList)).detect).1 = true ∧
      (((TextReader.new ("xy".toList)).detector.next_text ("xy".toList)).detect).2.last_len =
        ((TextReader.new ("xy".toList)).detector.next_text ("xy".toList)).compares.length) :=
  ⟨⟨by decide, by decide⟩,
    c7_tail_match_succeeds ((TextReader.new ("xy".toList)).detector.next_text ("xy".toList))
      (by decide) (by decide)⟩

/-- C8: the concrete scenario on input `"華文\ndef"`: length 6; the first two
reads yield `華` then `文`, leaving position 2, current line `"華文"`, line 1
and column 2; the next read yields the newline, leaving line 2, column 0 and
current line `"def"`; two `back()` calls followed by a read yield `文`
again. -/
theorem c8_scenario :
    (TextReader.new sampleText).len = 6 ∧
    sampleStep1.1 = some '華' ∧
    sampleStep2.1 = some '文' ∧
    sampleStep2.2.position = 2 ∧
    sampleLine1.1 = some ("華文".toList) ∧
    sampleLine1.2.line = 1 ∧
    sampleLine1.2.cursor = 2 ∧
    sampleStep3.1 = some '\n' ∧
    sampleStep3.2.line = 2 ∧
    sampleStep3.2.cursor = 0 ∧
    sampleLine2.1 = some ("def".toList) ∧
    (((sampleLine2.2.back).back).next).1 = some '文' := by decide

/-- C9: a failed `detect` does not reset `last_len`: after a successful match
of length `L`, a later failed attempt on the same detector keeps
`last_len = L` and restores the reader's position, so a subsequent
`rollback()` still moves the position back exactly `L` characters. -/
theorem c9_failed_attempt_keeps_matched_length (d : Detector)
    (hpos : d.reader.position ≤ d.reader.text.length)
    (h1 : (d.detect).1 = true)
    (h2 : (((d.detect).2).detect).1 = false) :
    (((d.detect).2).detect).2.last_len = d.compares.length ∧
    (((d.detect).2).detect).2.reader.position = ((d.detect).2).reader.position ∧
    ((((d.detect).2).detect).2.rollback).reader.position =
      (((d.detect).2).detect).2.reader.position - d.compares.length := by
  have hfuel1 : d.reader.text.length - d.reader.position <
      d.reader.len - d.reader.position + 1 := by simp [TextReader.len]
  simp only [Detector.detect] at h1 h2 ⊢
  obtain ⟨ha1, ha2, ha3, ha4⟩ := detectLoopF_true (d.reader.len - d.reader.position + 1)
    d.compares d.last_len 0 d.reader hfuel1 hpos h1
  set r1 := (detectLoopF (d.reader.len - d.reader.position + 1) d.compares d.last_len 0
    d.reader).2.2 with hr1
  set ll1 := (detectLoopF (d.reader.len - d.reader.position + 1) d.compares d.last_len 0
    d.reader).2.1 with hll1
  have hfuel2 : r1.text.length - r1.position < r1.len - r1.position + 1 := by
    simp [TextReader.len]
  have hpos2 : r1.position ≤ r1.text.length := by rw [ha4]; exact ha3
  obtain ⟨hb1, hb2, hb3⟩ := detectLoopF_false (r1.len - r1.position + 1)
    d.compares ll1 0 r1 hfuel2 hpos2 (by omega) h2
  refine ⟨by rw [hb1, ha1], by rw [hb2]; omega, ?_⟩
  simp only [Detector.rollback]
  rw [show (detectLoopF (r1.len - r1.position + 1) d.compares ll1 0 r1).2.1 =
    d.compares.length from hb1.trans ha1]
  have hback := backN_position d.compares.length
    (detectLoopF (r1.len - r1.position + 1) d.compares ll1 0 r1).2.2
    (by rw [hb2, ha2]; omega) (by rw [hb2, hb3]; omega)
  exact hback.1

theorem c9_failed_attempt_keeps_matched_length_witness :
    ((TextReader.new ("abxy".toList)).detector.next_text ("ab".toList)).reader.position ≤
      ((TextReader.new ("abxy".toList)).detector.next_text ("ab".toList)).reader.text.length ∧
    (((TextReader.new ("abxy".toList)).detector.next_text ("ab".toList)).detect).1 = true ∧
    ((((TextReader.new ("abxy".toList)).detector.next_text ("ab".toList)).detect).2.detect).1 = false ∧
    ((((TextReader.new ("abxy".toList)).detector.next_text ("ab".toList)).detect).2.detect).2.last_len =
      ((TextReader.new ("abxy".toList)).detector.next_text ("ab".toList)).compares.length :=
  ⟨by decide, by decide, by decide,
    (c9_failed_attempt_keeps_matched_length
      ((TextReader.new ("abxy".toList)).detector.next_text ("ab".toList))
      (by decide) (by decide) (by decide)).1⟩

/-- C10: the expected sequence only ever grows: `next_char` and `next_text`
append to it and `detect` (hence `yes`/`fails`) and `rollback` leave it
untouched, so a repeated `detect` matches the entire accumulated sequence
from the cursor's new position. -/
theorem c10_compares_only_grows (d : Detector) (ch : Char) (s : List Char) :
    (d.next_char ch).compares = d.compares ++ [ch] ∧
    (d.next_text s).compares = d.compares ++ s ∧
    ((d.detect).2).compares = d.compares ∧
    ((d.yes).2).compares = d.compares ∧
    ((d.no).2).compares = d.compares ∧
    (d.rollback).compares = d.compares :=
  ⟨rfl, next_text_compares s d, rfl, rfl, rfl, rfl⟩
